import Mathlib

/-!
Shallow embedding of `entangled/loom/lazy.py`: lazy tasks with memoized
results, a per-task mutual-exclusion guard, and a registry (`LazyDB`) that
coordinates recursive resolution of task identifiers.

Modelling decisions:
* Task objects (`Lazy` instances) live in a heap, referenced by `TaskId`
  (a heap index).  The mutable attributes `_lock` and `_result` are fields
  of the heap object; `targets` and `dependencies` are never mutated by the
  module and are ordinary fields.
* `asyncio` coroutines are sequentialized: an `await` simply runs the
  awaited computation to completion.  `asyncio.gather` over the dependency
  list runs the resolutions left to right, returning outcomes in input
  order (as `gather` does).  Acquiring an `asyncio.Lock` that is already
  held can never succeed in a single-threaded execution, so it is modelled
  as the `deadlock` exception.
* Every computation is explicit state passing of type
  `Heap → Except Exc α × Heap`: a raised exception carries the state at
  raise time, so side effects performed before the raise persist, exactly
  as in Python.  `Exc` covers exceptions the module itself does not catch.
* The abstract `Lazy.run` hook is modelled by a pure behaviour map
  `runSpec : TaskId → RunEff T R` saying, for each task, whether `run()`
  returns a value, raises `TaskFailure`, or raises some other exception.
  Each invocation of `run()` is recorded in the heap's `runLog`, which
  plays the role of the external side-effect counter used by the spec's
  testable properties.
* The variadic `*args` pass-through context is not modelled: it is
  forwarded verbatim from `LazyDB.run` to `Lazy.run` and never inspected,
  so it does not affect any behaviour stated here.
-/

namespace LoomLazy

variable {T R : Type}

/-- Reference to a `Lazy` task object: an index into the heap. -/
abbrev TaskId := Nat

/-- The outcome sum type `Result = Union[Failure, Ok]` of `lazy.py`.
`Ok` and `DependencyFailure` store the producing `Lazy` object (`self`),
modelled by its `TaskId`; `MissingFailure` stores the requested identifier;
`TaskFailure` stores whatever `task` field the raiser put in it (typed `T`
in the source) together with its `message`. -/
inductive Result (T R : Type) : Type where
  | ok (task : TaskId) (value : R)
  | missingFailure (task : T)
  | taskFailure (task : T) (message : String)
  | dependencyFailure (task : TaskId) (dependent : List (Result T R))
deriving Repr

/-- Boolean projection of an outcome: `Ok.__bool__` returns `True`,
`Failure.__bool__` returns `False` (inherited by all failure kinds). -/
def Result.truthy : Result T R → Bool
  | .ok _ _ => true
  | _ => false

/-- Behaviour of one invocation of the abstract `run()` hook of a task:
return a value, raise `TaskFailure(task, message)`, or raise any other
exception (opaque code). -/
inductive RunEff (T R : Type) : Type where
  | val (v : R)
  | taskFail (task : T) (message : String)
  | fatal (code : Nat)
deriving Repr

/-- Exceptions that escape the module's own code (it only ever catches
`TaskFailure` and `MissingDependency`). -/
inductive Exc : Type where
  /-- An exception other than `TaskFailure` raised inside `run()`. -/
  | fatal (code : Nat)
  /-- Awaiting an `asyncio.Lock` that is already held: in the
  sequentialized model this can never succeed. -/
  | deadlock
  /-- Dereferencing a `TaskId` outside the heap (cannot happen in Python,
  where `self` always exists). -/
  | badRef
  /-- Recursion bound exhausted; stands in for nontermination. -/
  | fuelOut
deriving Repr

/-- A `Lazy` task object: `targets`, `dependencies`, the held-state of its
`_lock`, and the `_result` cell (field defaults mirror `init=False`
dataclass fields). -/
structure Lazy (T R : Type) : Type where
  targets : List T
  dependencies : List T
  locked : Bool := false
  result : Option (Result T R) := none
deriving Repr

/-- `Lazy.__bool__`: `self._result is not None and bool(self._result)`. -/
def Lazy.toBool (o : Lazy T R) : Bool :=
  match o.result with
  | none => false
  | some r => r.truthy

/-- The `result` property of `Lazy`: raises `ValueError` when the cell is
empty or holds a falsy outcome, asserts `Ok` and returns its value
otherwise. -/
def Lazy.resultProp (o : Lazy T R) : Except String R :=
  match o.result with
  | none => .error "Task has not run yet."
  | some r =>
    if r.truthy then
      match r with
      | .ok _ v => .ok v
      | _ => .error "AssertionError"
    else
      .error "Task has failed."

/-- The mutable store: all `Lazy` objects created so far, plus the log of
`run()` invocations (observing the external side effects of `run()`). -/
structure Heap (T R : Type) : Type where
  objs : List (Lazy T R)
  runLog : List TaskId := []
deriving Repr

/-- Computations of the sequentialized coroutine semantics: explicit state
passing over the heap, with `Except` for a raised exception. -/
abbrev Act (T R α : Type) := Heap T R → Except Exc α × Heap T R

/-- Dereference a task id. -/
def Heap.getObj (h : Heap T R) (tid : TaskId) : Option (Lazy T R) :=
  h.objs[tid]?

/-- Update the object at `tid` (identity when `tid` is not allocated). -/
def Heap.modifyObj (h : Heap T R) (tid : TaskId) (f : Lazy T R → Lazy T R) :
    Heap T R :=
  match h.objs[tid]? with
  | none => h
  | some o => { h with objs := h.objs.set tid (f o) }

/-- Acquire or release the `_lock` of the object at `tid`. -/
def Heap.setLocked (h : Heap T R) (tid : TaskId) (b : Bool) : Heap T R :=
  h.modifyObj tid fun o => { o with locked := b }

/-- Assign the `_result` cell of the object at `tid`. -/
def Heap.setResult (h : Heap T R) (tid : TaskId) (r : Option (Result T R)) :
    Heap T R :=
  h.modifyObj tid fun o => { o with result := r }

/-- Record one invocation of `run()` on the task `tid`. -/
def Heap.logRun (h : Heap T R) (tid : TaskId) : Heap T R :=
  { h with runLog := h.runLog ++ [tid] }

/-- `Lazy.reset`: `self._result = None`. -/
def Lazy.reset (h : Heap T R) (tid : TaskId) : Heap T R :=
  h.setResult tid none

/-- `asyncio.gather(*(recurse(dep) for dep in deps))`, sequentialized left
to right; outcomes are returned in input order, the first raised exception
propagates. -/
def gatherDeps (recurse : T → Act T R (Result T R)) :
    List T → Act T R (List (Result T R))
  | [], h => (.ok [], h)
  | d :: ds, h =>
    match recurse d h with
    | (.error e, h') => (.error e, h')
    | (.ok r, h') =>
      match gatherDeps recurse ds h' with
      | (.error e, h'') => (.error e, h'')
      | (.ok rs, h'') => (.ok (r :: rs), h'')

/-- `Lazy.run_after_deps`: resolve every declared dependency through the
supplied `recurse` capability; if any outcome is falsy return
`DependencyFailure(self, [f for f in dep_res if not f])`; otherwise invoke
`run()`, wrapping a returned value in `Ok(self, result)` and catching a
raised `TaskFailure` as the outcome (any other exception propagates). -/
def Lazy.run_after_deps (runSpec : TaskId → RunEff T R) (tid : TaskId)
    (recurse : T → Act T R (Result T R)) : Act T R (Result T R) := fun h =>
  match h.getObj tid with
  | none => (.error .badRef, h)
  | some o =>
    match gatherDeps recurse o.dependencies h with
    | (.error e, h') => (.error e, h')
    | (.ok depRes, h') =>
      if !(depRes.all Result.truthy) then
        (.ok (.dependencyFailure tid (depRes.filter fun f => !f.truthy)), h')
      else
        let h'' := h'.logRun tid
        match runSpec tid with
        | .val v => (.ok (.ok tid v), h'')
        | .taskFail t msg => (.ok (.taskFailure t msg), h'')
        | .fatal c => (.error (.fatal c), h'')

/-- `Lazy.run_cached`: `async with self._lock`, return the memoized
`_result` if the cell is occupied, otherwise run `run_after_deps`, store
its outcome in the cell and return it; the lock is released on every exit,
including a raised exception (the `async with` unwinds). -/
def Lazy.run_cached (runSpec : TaskId → RunEff T R) (tid : TaskId)
    (recurse : T → Act T R (Result T R)) : Act T R (Result T R) := fun h =>
  match h.getObj tid with
  | none => (.error .badRef, h)
  | some o =>
    if o.locked then
      (.error .deadlock, h)
    else
      let h1 := h.setLocked tid true
      match o.result with
      | some r => (.ok r, h1.setLocked tid false)
      | none =>
        match Lazy.run_after_deps runSpec tid recurse h1 with
        | (.error e, h2) => (.error e, h2.setLocked tid false)
        | (.ok res, h2) =>
          (.ok res, (h2.setResult tid (some res)).setLocked tid false)

/-- The registry `LazyDB`: an enumeration of registered tasks and the
identifier-to-task index (the `dict` is modelled by its lookup function;
defaults mirror the empty `default_factory` values). -/
structure LazyDB (T : Type) : Type where
  tasks : List TaskId := []
  index : T → Option TaskId := fun _ => none

/-- The default `LazyDB.on_missing` policy hook: raise `MissingDependency`
(`none` models the raise; a hook may also mutate the heap, e.g. allocate a
synthesized task). -/
def LazyDB.on_missing (_ : T) : Heap T R → Option TaskId × Heap T R :=
  fun h => (none, h)

/-- `LazyDB.run`: look the identifier up in the index, falling back to the
`on_missing` hook (a raised `MissingDependency` becomes
`MissingFailure(t)` returned as data), then delegate to the task's
`run_cached`, passing `self.run` back in as the `recurse` capability.
`fuel` bounds the recursion depth; exhaustion stands for nontermination. -/
def LazyDB.run (runSpec : TaskId → RunEff T R)
    (hook : T → Heap T R → Option TaskId × Heap T R) (db : LazyDB T) :
    Nat → T → Act T R (Result T R)
  | 0, _, h => (.error .fuelOut, h)
  | fuel + 1, t, h =>
    match db.index t with
    | none =>
      match hook t h with
      | (none, h') => (.ok (.missingFailure t), h')
      | (some tid, h') =>
        Lazy.run_cached runSpec tid (LazyDB.run runSpec hook db fuel) h'
    | some tid =>
      Lazy.run_cached runSpec tid (LazyDB.run runSpec hook db fuel) h

/-- `LazyDB.add`: append the task to the enumeration and set
`index[target] = task` for each declared target (the object `task` at
reference `tid`). -/
def LazyDB.add [DecidableEq T] (db : LazyDB T) (tid : TaskId)
    (task : Lazy T R) : LazyDB T :=
  { tasks := db.tasks ++ [tid]
    index := task.targets.foldl
      (fun ix target t => if t = target then some tid else ix t) db.index }

/-- `LazyDB.clean`: `self.tasks = []; self.index = {}`. -/
def LazyDB.clean (_ : LazyDB T) : LazyDB T :=
  { tasks := [], index := fun _ => none }

/-- `LazyDB.reset`: `for t in self.tasks: t.reset()`. -/
def LazyDB.reset (db : LazyDB T) (h : Heap T R) : Heap T R :=
  db.tasks.foldl (fun h' tid => Lazy.reset h' tid) h

/-! ### Concrete instances used to exercise the definitions -/

/-- A `run()` behaviour that returns the value `7` for every task. -/
def valRun : TaskId → RunEff Nat Nat := fun _ => .val 7

/-- A `run()` behaviour that raises a non-`TaskFailure` exception. -/
def fatalRun : TaskId → RunEff Nat Nat := fun _ => .fatal 3

/-- A `recurse` capability that resolves every identifier to
`MissingFailure` without touching the heap. -/
def idleRecurse : Nat → Act Nat Nat (Result Nat Nat) :=
  fun t h => (.ok (.missingFailure t), h)

/-- A `recurse` capability resolving identifier `0` successfully and every
other identifier to `MissingFailure`, without touching the heap. -/
def mixedRecurse : Nat → Act Nat Nat (Result Nat Nat) :=
  fun t h => if t = 0 then (.ok (.ok 0 1), h) else (.ok (.missingFailure t), h)

/-- A `recurse` capability resolving every identifier successfully. -/
def okRecurse : Nat → Act Nat Nat (Result Nat Nat) :=
  fun _ h => (.ok (.ok 5 1), h)

/-- A task whose result cell is already occupied by `Ok(self, 42)`. -/
def memoTask : Lazy Nat Nat :=
  { targets := [0], dependencies := [], result := some (.ok 0 42) }

/-- A heap with a single task whose result cell is already occupied. -/
def memoHeap : Heap Nat Nat := { objs := [memoTask] }

/-- A heap with a single unresolved task depending on identifiers 0, 1. -/
def depHeap : Heap Nat Nat :=
  { objs := [{ targets := [2], dependencies := [0, 1] }] }

/-- A heap with a single unresolved task depending on identifier 1. -/
def runHeap : Heap Nat Nat :=
  { objs := [{ targets := [2], dependencies := [1] }] }

/-- A heap with a single unresolved dependency-free task. -/
def leafHeap : Heap Nat Nat :=
  { objs := [{ targets := [0], dependencies := [] }] }

/-- The heap `leafHeap` after a failed resolution attempt of task 0 whose
`run()` raised a non-`TaskFailure` exception: the lock was acquired and
`run()` invoked, but no outcome was stored. -/
def fatalHeap2 : Heap Nat Nat :=
  { objs := [{ targets := [0], dependencies := [], locked := true }],
    runLog := [0] }

/-- The empty heap. -/
def emptyHeap : Heap Nat Nat := { objs := [] }

/-- The freshly constructed, empty registry. -/
def emptyDB : LazyDB Nat := {}

/-- A collaborator's overriding `on_missing` policy: synthesize a fresh,
dependency-free leaf task (the spec's "pre-existing leaf input" treatment)
for the requested identifier and hand it back without registering it. -/
def leafHook : Nat → Heap Nat Nat → Option TaskId × Heap Nat Nat := fun t h =>
  (some h.objs.length,
    { h with objs := h.objs ++ [{ targets := [t], dependencies := [] }] })

/-- Heap state after `leafHook` has synthesized a task for identifier 5. -/
def hookHeap : Heap Nat Nat := (leafHook 5 emptyHeap).2

/-- A registry that already binds target 3 to task 0. -/
def overlapDB : LazyDB Nat :=
  { tasks := [0], index := fun t => if t = 3 then some 0 else none }

/-- A task declaring targets 3 and 4; registering it after `overlapDB`'s
task 0 overwrites the binding of target 3. -/
def overlapTask : Lazy Nat Nat := { targets := [3, 4], dependencies := [] }

/-- Heap state after one resolution of the unregistered identifier 5
through `leafHook` against the empty registry. -/
def synthHeap1 : Heap Nat Nat :=
  (LazyDB.run valRun leafHook emptyDB 2 5 emptyHeap).2

/-- Heap state after a second resolution of the still-unregistered
identifier 5 through `leafHook`. -/
def synthHeap2 : Heap Nat Nat :=
  (LazyDB.run valRun leafHook emptyDB 2 5 synthHeap1).2

/-! ### Helper lemmas about the heap operations -/

theorem set_self_of_getElem? {α : Type} :
    ∀ {l : List α} {i : Nat} {a : α}, l[i]? = some a → l.set i a = l
  | [], i, a, hg => by simp at hg
  | x :: xs, 0, a, hg => by simp at hg; simp [hg]
  | x :: xs, i + 1, a, hg => by
    simp only [List.getElem?_cons_succ] at hg
    simp [List.set_cons_succ, set_self_of_getElem? hg]

theorem getObj_modifyObj_self {h : Heap T R} {tid : TaskId}
    {f : Lazy T R → Lazy T R} :
    (h.modifyObj tid f).getObj tid = (h.getObj tid).map f := by
  unfold Heap.modifyObj Heap.getObj
  cases hg : h.objs[tid]? with
  | none => simp [hg]
  | some o =>
    have hlt : tid < h.objs.length := by
      by_contra hge
      simp [List.getElem?_eq_none (Nat.le_of_not_lt hge)] at hg
    simp [hg, List.getElem?_set_eq_of_lt _ hlt]

theorem getObj_modifyObj_ne {h : Heap T R} {tid tid' : TaskId}
    {f : Lazy T R → Lazy T R} (hne : tid ≠ tid') :
    (h.modifyObj tid f).getObj tid' = h.getObj tid' := by
  unfold Heap.modifyObj Heap.getObj
  cases hg : h.objs[tid]? with
  | none => simp
  | some o => simp [List.getElem?_set_ne hne]

theorem runLog_modifyObj {h : Heap T R} {tid : TaskId}
    {f : Lazy T R → Lazy T R} : (h.modifyObj tid f).runLog = h.runLog := by
  unfold Heap.modifyObj
  cases h.objs[tid]? <;> simp

theorem modifyObj_modifyObj {h : Heap T R} {tid : TaskId}
    {f g : Lazy T R → Lazy T R} :
    (h.modifyObj tid f).modifyObj tid g = h.modifyObj tid (fun o => g (f o)) := by
  unfold Heap.modifyObj
  cases hg : h.objs[tid]? with
  | none => simp [hg]
  | some o =>
    have hlt : tid < h.objs.length := by
      by_contra hge
      simp [List.getElem?_eq_none (Nat.le_of_not_lt hge)] at hg
    simp [hg, List.getElem?_set_eq_of_lt _ hlt, List.set_set]

theorem modifyObj_id_of {h : Heap T R} {tid : TaskId} {o : Lazy T R}
    {f : Lazy T R → Lazy T R} (hg : h.getObj tid = some o) (hf : f o = o) :
    h.modifyObj tid f = h := by
  unfold Heap.modifyObj
  unfold Heap.getObj at hg
  simp [hg, hf, set_self_of_getElem? hg]

theorem setLocked_roundtrip {h : Heap T R} {tid : TaskId} {o : Lazy T R}
    (hg : h.getObj tid = some o) (hl : o.locked = false) :
    (h.setLocked tid true).setLocked tid false = h := by
  unfold Heap.setLocked
  rw [modifyObj_modifyObj]
  exact modifyObj_id_of hg (by cases o; simp at hl; simp [hl])

/-- Unfolding of `run_cached` on an unlocked task with an empty result
cell: the full resolution path runs, the outcome is stored, the lock
released. -/
theorem run_cached_uncached {runSpec : TaskId → RunEff T R} {tid : TaskId}
    {recurse : T → Act T R (Result T R)} {h : Heap T R} {o : Lazy T R}
    (hget : h.getObj tid = some o) (hlock : o.locked = false)
    (hres : o.result = none) :
    Lazy.run_cached runSpec tid recurse h =
      match Lazy.run_after_deps runSpec tid recurse (h.setLocked tid true) with
      | (.error e, h2) => (.error e, h2.setLocked tid false)
      | (.ok res, h2) =>
        (.ok res, (h2.setResult tid (some res)).setLocked tid false) := by
  unfold Lazy.run_cached
  rw [hget]
  simp only [hlock, hres]
  rfl

/-! ### Claim theorems -/

/-- C1: memoization invariant — once a task's result cell holds an
outcome, `run_cached` returns that stored outcome verbatim and leaves the
heap (including the result cell and the `run()` invocation log) completely
unchanged, for every behaviour of `run()` and every `recurse` capability
(so neither `run()` nor any dependency resolution happens); the cell is
cleared only by an explicit `Lazy.reset`. -/
theorem memoization_contract (runSpec : TaskId → RunEff T R)
    (recurse : T → Act T R (Result T R)) (h : Heap T R) (tid : TaskId)
    (o : Lazy T R) (r : Result T R) (hget : h.getObj tid = some o)
    (hlock : o.locked = false) (hres : o.result = some r) :
    Lazy.run_cached runSpec tid recurse h = (.ok r, h) ∧
    ∀ (h' : Heap T R) (tid' : TaskId),
      (Lazy.reset h' tid').getObj tid' =
        (h'.getObj tid').map fun o' => { o' with result := none } := by
  constructor
  · unfold Lazy.run_cached
    rw [hget]
    simp only [hlock, hres]
    simp [setLocked_roundtrip hget hlock]
  · intro h' tid'
    unfold Lazy.reset Heap.setResult
    exact getObj_modifyObj_self

theorem memoization_contract_witness :
    Lazy.run_cached valRun 0 idleRecurse memoHeap =
      (.ok (.ok 0 42), memoHeap) :=
  (memoization_contract valRun idleRecurse memoHeap 0 memoTask
    (.ok 0 42) rfl rfl rfl).1

/-- C2: dependency-failure branch — when resolving the declared
dependencies yields at least one falsy outcome, `run_after_deps` returns
`DependencyFailure` whose `task` field is this task and whose failure list
is exactly the falsy outcomes in order (the truthy ones filtered out), and
the final heap is exactly the post-dependency heap `h'` while `runSpec` is
arbitrary: `run()` is not invoked (no entry is appended to the run log). -/
theorem dependency_failure_branch (runSpec : TaskId → RunEff T R)
    (tid : TaskId) (recurse : T → Act T R (Result T R)) (h : Heap T R)
    (o : Lazy T R) (depRes : List (Result T R)) (h' : Heap T R)
    (hget : h.getObj tid = some o)
    (hdeps : gatherDeps recurse o.dependencies h = (.ok depRes, h'))
    (hfalsy : depRes.all Result.truthy = false) :
    Lazy.run_after_deps runSpec tid recurse h =
      (.ok (.dependencyFailure tid (depRes.filter fun f => !f.truthy)), h') := by
  unfold Lazy.run_after_deps
  rw [hget]
  dsimp only
  rw [hdeps]
  simp [hfalsy]

theorem dependency_failure_branch_witness :
    Lazy.run_after_deps valRun 0 mixedRecurse depHeap =
      (.ok (.dependencyFailure 0 [.missingFailure 1]), depHeap) :=
  dependency_failure_branch valRun 0 mixedRecurse depHeap
    { targets := [2], dependencies := [0, 1] }
    [.ok 0 1, .missingFailure 1] depHeap rfl rfl rfl

/-- C3: run-branch semantics — when every dependency outcome is truthy,
`run_after_deps` invokes `run()` exactly once (one entry appended to the
run log): a returned value `v` becomes `Ok(self, v)`, a raised
`TaskFailure` is caught and returned as the outcome itself, and any other
raised exception propagates out as an uncaught error. -/
theorem run_branch_semantics (runSpec : TaskId → RunEff T R) (tid : TaskId)
    (recurse : T → Act T R (Result T R)) (h : Heap T R) (o : Lazy T R)
    (depRes : List (Result T R)) (h' : Heap T R)
    (hget : h.getObj tid = some o)
    (hdeps : gatherDeps recurse o.dependencies h = (.ok depRes, h'))
    (htruthy : depRes.all Result.truthy = true) :
    Lazy.run_after_deps runSpec tid recurse h =
      ((match runSpec tid with
        | .val v => Except.ok (.ok tid v)
        | .taskFail t msg => Except.ok (.taskFailure t msg)
        | .fatal c => Except.error (.fatal c)), h'.logRun tid) := by
  unfold Lazy.run_after_deps
  rw [hget]
  dsimp only
  rw [hdeps]
  simp only [htruthy]
  cases runSpec tid <;> rfl

theorem run_branch_semantics_witness :
    Lazy.run_after_deps valRun 0 okRecurse runHeap =
      (.ok (.ok 0 7), runHeap.logRun 0) :=
  run_branch_semantics valRun 0 okRecurse runHeap
    { targets := [2], dependencies := [1] } [.ok 5 1] runHeap rfl rfl rfl

/-- C4: missing-identifier policy — for an identifier absent from the
index, `LazyDB.run` under the default `on_missing` hook returns
`MissingFailure(t)` as a value (no exception escapes, the heap untouched);
under an overriding hook that produces a task, resolution delegates to
that task's `run_cached`, with the registry's own `run` passed back in as
the `recurse` capability. -/
theorem missing_identifier_policy (runSpec : TaskId → RunEff T R)
    (db : LazyDB T) (fuel : Nat) (t : T) (h : Heap T R)
    (hmiss : db.index t = none) :
    LazyDB.run runSpec LazyDB.on_missing db (fuel + 1) t h =
      (.ok (.missingFailure t), h) ∧
    ∀ (hook : T → Heap T R → Option TaskId × Heap T R) (tid : TaskId)
      (h' : Heap T R), hook t h = (some tid, h') →
      LazyDB.run runSpec hook db (fuel + 1) t h =
        Lazy.run_cached runSpec tid (LazyDB.run runSpec hook db fuel) h' := by
  constructor
  · unfold LazyDB.run
    rw [hmiss]
    rfl
  · intro hook tid h' hhook
    unfold LazyDB.run
    rw [hmiss]
    dsimp only
    rw [hhook]

theorem missing_identifier_policy_witness :
    LazyDB.run valRun LazyDB.on_missing emptyDB 1 5 emptyHeap =
      (.ok (.missingFailure 5), emptyHeap) ∧
    LazyDB.run valRun leafHook emptyDB 1 5 emptyHeap =
      Lazy.run_cached valRun 0 (LazyDB.run valRun leafHook emptyDB 0)
        hookHeap :=
  ⟨(missing_identifier_policy valRun emptyDB 0 5 emptyHeap rfl).1,
    (missing_identifier_policy valRun emptyDB 0 5 emptyHeap rfl).2
      leafHook 0 hookHeap rfl⟩

/-- C6: value-accessor raises-iff — the `result` property raises a
`ValueError` exactly when the result cell is empty or holds a falsy
(failure) outcome, and returns the stored value when the cell holds
`Ok`. -/
theorem value_accessor_raises_iff (o : Lazy T R) :
    ((∃ msg, o.resultProp = .error msg) ↔
      o.result = none ∨ ∃ r, o.result = some r ∧ r.truthy = false) ∧
    ∀ (t : TaskId) (v : R), o.result = some (.ok t v) →
      o.resultProp = .ok v := by
  constructor
  · cases hres : o.result with
    | none => simp [Lazy.resultProp, hres]
    | some r =>
      cases r <;> simp [Lazy.resultProp, hres, Result.truthy]
  · intro t v hv
    simp [Lazy.resultProp, hv, Result.truthy]

theorem value_accessor_raises_iff_witness :
    Lazy.resultProp memoTask = Except.ok 42 :=
  (value_accessor_raises_iff memoTask).2 0 42 rfl

/-- Lookup after the index-update loop of `LazyDB.add`: an identifier
among the added task's targets now maps to that task, every other
identifier keeps its previous binding. -/
theorem add_index_lookup [DecidableEq T] (tid : TaskId) (targets : List T) :
    ∀ (ix : T → Option TaskId) (t : T),
      (targets.foldl
        (fun ix' target t' => if t' = target then some tid else ix' t') ix) t =
        if t ∈ targets then some tid else ix t := by
  induction targets with
  | nil => intro ix t; simp
  | cons tgt ts ih =>
    intro ix t
    rw [List.foldl_cons, ih]
    by_cases hts : t ∈ ts <;> by_cases htg : t = tgt <;>
      simp [hts, htg, List.mem_cons]

/-- C7: registration semantics — `add(task)` appends the task to the
enumeration and binds every one of its declared targets to it in the
index, regardless of (and silently overwriting) any previous binding,
while identifiers outside the target list keep their old binding. -/
theorem registration_semantics [DecidableEq T] (db : LazyDB T)
    (tid : TaskId) (task : Lazy T R) :
    (db.add tid task).tasks = db.tasks ++ [tid] ∧
    (∀ t, t ∈ task.targets → (db.add tid task).index t = some tid) ∧
    (∀ t, t ∉ task.targets → (db.add tid task).index t = db.index t) := by
  refine ⟨rfl, fun t ht => ?_, fun t ht => ?_⟩
  · unfold LazyDB.add
    dsimp only
    rw [add_index_lookup]
    simp [ht]
  · unfold LazyDB.add
    dsimp only
    rw [add_index_lookup]
    simp [ht]

theorem registration_semantics_witness :
    (overlapDB.add 1 overlapTask).tasks = [0, 1] ∧
    (overlapDB.add 1 overlapTask).index 3 = some 1 ∧
    (overlapDB.add 1 overlapTask).index 9 = none := by
  refine ⟨(registration_semantics overlapDB 1 overlapTask).1, ?_, ?_⟩
  · exact (registration_semantics overlapDB 1 overlapTask).2.1 3 (by decide)
  · exact ((registration_semantics overlapDB 1 overlapTask).2.2 9
      (by decide)).trans (by decide)

/-- Effect of the reset loop on one task object: its result cell is
cleared when it is enumerated in `l`, and the object (all fields) is
untouched otherwise. -/
theorem getObj_foldl_reset (tid : TaskId) (l : List TaskId) :
    ∀ h : Heap T R,
      (l.foldl (fun h' t => Lazy.reset h' t) h).getObj tid =
        (h.getObj tid).map fun o =>
          if tid ∈ l then { o with result := none } else o := by
  induction l with
  | nil =>
    intro h
    cases hg : h.getObj tid <;> simp [hg]
  | cons d ds ih =>
    intro h
    rw [List.foldl_cons, ih]
    by_cases hd : tid = d
    · subst hd
      have hr : (Lazy.reset h tid).getObj tid =
          (h.getObj tid).map fun o => { o with result := none } := by
        unfold Lazy.reset Heap.setResult
        exact getObj_modifyObj_self
      rw [hr]
      cases hg : h.getObj tid with
      | none => simp
      | some o => by_cases hds : tid ∈ ds <;> simp [hds, List.mem_cons]
    · have hr : (Lazy.reset h d).getObj tid = h.getObj tid := by
        unfold Lazy.reset Heap.setResult
        exact getObj_modifyObj_ne (Ne.symm hd)
      rw [hr]
      cases hg : h.getObj tid <;> simp [List.mem_cons, hd]

/-- The reset loop never touches the run log. -/
theorem runLog_foldl_reset (l : List TaskId) :
    ∀ h : Heap T R,
      (l.foldl (fun h' t => Lazy.reset h' t) h).runLog = h.runLog := by
  induction l with
  | nil => intro h; rfl
  | cons d ds ih =>
    intro h
    rw [List.foldl_cons, ih]
    unfold Lazy.reset Heap.setResult
    exact runLog_modifyObj

/-- C8: registry reset frame condition — `LazyDB.reset` empties the result
cell of exactly the enumerated tasks and changes nothing else on any task
object (targets, dependencies and lock state are kept, non-enumerated
tasks are untouched, the run log is preserved); the registry value itself
(enumeration and index) is not an input-output of `reset` in the model,
mirroring that the Python method never assigns them.  `clean`, by
contrast, discards the entire enumeration and index. -/
theorem reset_frame_condition (db : LazyDB T) (h : Heap T R) :
    (∀ tid, (db.reset h).getObj tid =
      (h.getObj tid).map fun o =>
        if tid ∈ db.tasks then { o with result := none } else o) ∧
    (db.reset h).runLog = h.runLog ∧
    (LazyDB.clean db).tasks = [] ∧
    (∀ t, (LazyDB.clean db).index t = none) := by
  refine ⟨fun tid => ?_, ?_, rfl, fun t => rfl⟩
  · unfold LazyDB.reset
    exact getObj_foldl_reset tid db.tasks h
  · unfold LazyDB.reset
    exact runLog_foldl_reset db.tasks h

/-- C9: atomicity on unexpected defects — when `run_after_deps` raises
(i.e. `run()` raised something other than `TaskFailure`), `run_cached`
stores nothing in the result cell (the final heap is exactly the
post-failure heap with only the lock put back), the exclusive guard is
released, and a subsequent `run_cached` call on the resulting heap takes
the full resolution path again instead of returning a cached outcome. -/
theorem atomicity_on_defects (runSpec : TaskId → RunEff T R)
    (recurse : T → Act T R (Result T R)) (h : Heap T R) (tid : TaskId)
    (o o2 : Lazy T R) (ex : Exc) (h2 : Heap T R)
    (hget : h.getObj tid = some o) (hlock : o.locked = false)
    (hres : o.result = none)
    (hrad : Lazy.run_after_deps runSpec tid recurse (h.setLocked tid true) =
      (.error ex, h2))
    (hget2 : h2.getObj tid = some o2) (hres2 : o2.result = none) :
    Lazy.run_cached runSpec tid recurse h =
      (.error ex, h2.setLocked tid false) ∧
    (h2.setLocked tid false).getObj tid = some { o2 with locked := false } ∧
    ∀ (runSpec' : TaskId → RunEff T R)
      (recurse' : T → Act T R (Result T R)),
      Lazy.run_cached runSpec' tid recurse' (h2.setLocked tid false) =
        match Lazy.run_after_deps runSpec' tid recurse'
            ((h2.setLocked tid false).setLocked tid true) with
        | (.error e, h4) => (.error e, h4.setLocked tid false)
        | (.ok res, h4) =>
          (.ok res, (h4.setResult tid (some res)).setLocked tid false) := by
  have hg3 : (h2.setLocked tid false).getObj tid =
      some { o2 with locked := false } := by
    unfold Heap.setLocked
    rw [getObj_modifyObj_self, hget2]
    rfl
  refine ⟨?_, hg3, fun runSpec' recurse' => ?_⟩
  · rw [run_cached_uncached hget hlock hres, hrad]
  · exact run_cached_uncached hg3 rfl hres2

theorem atomicity_on_defects_witness :
    Lazy.run_cached fatalRun 0 idleRecurse leafHeap =
      (.error (.fatal 3), fatalHeap2.setLocked 0 false) :=
  (atomicity_on_defects fatalRun idleRecurse leafHeap 0
    { targets := [0], dependencies := [] }
    { targets := [0], dependencies := [], locked := true }
    (.fatal 3) fatalHeap2 rfl rfl rfl rfl rfl rfl).1

/-- C10: synthesized tasks are never registered — `LazyDB.run` on an
unregistered identifier only delegates to the hook-produced task's
`run_cached`; it mutates neither the enumeration nor the index (in the
model the registry value is not even an output of `run`, mirroring that
the Python method never assigns `self.tasks` or `self.index`).
Consequently, with a hook that synthesizes a fresh leaf task, a second
resolution of the same identifier invokes the hook again (a second object
is allocated), executes `run()` a second time (run log `[0, 1]`), returns
an outcome carried by the fresh task, and the registry's bulk `reset`
leaves the synthesized tasks' cells untouched. -/
theorem synthesized_tasks_unregistered :
    (∀ (runSpec : TaskId → RunEff T R)
       (hook : T → Heap T R → Option TaskId × Heap T R) (db : LazyDB T)
       (fuel : Nat) (t : T) (h h' : Heap T R) (tid : TaskId),
       db.index t = none → hook t h = (some tid, h') →
       LazyDB.run runSpec hook db (fuel + 1) t h =
         Lazy.run_cached runSpec tid (LazyDB.run runSpec hook db fuel) h') ∧
    synthHeap1.objs.length = 1 ∧ synthHeap2.objs.length = 2 ∧
    synthHeap2.runLog = [0, 1] ∧
    LazyDB.reset emptyDB synthHeap2 = synthHeap2 ∧
    (LazyDB.run valRun leafHook emptyDB 2 5 synthHeap1).1 =
      .ok (.ok 1 7) := by
  refine ⟨?_, rfl, rfl, rfl, rfl, rfl⟩
  intro runSpec hook db fuel t h h' tid hmiss hhook
  unfold LazyDB.run
  rw [hmiss]
  dsimp only
  rw [hhook]

theorem synthesized_tasks_unregistered_witness :
    LazyDB.run valRun leafHook emptyDB 1 5 emptyHeap =
      Lazy.run_cached valRun 0 (LazyDB.run valRun leafHook emptyDB 0)
        hookHeap :=
  (synthesized_tasks_unregistered).1 valRun leafHook emptyDB 0 5 emptyHeap
    hookHeap 0 rfl rfl

end LoomLazy
